import Mathlib

set_option maxRecDepth 8000

/-!
Verification development for the terraformify resource-block
classification, rewrite and state-patch engine (`lib/parse.go`,
`lib/props.go`, `lib/tfstate.go`).

The Go code is modelled with a shallow embedding:
* `strings.ReplaceAll` is modelled by `replaceAll` below (leftmost,
  non-overlapping matches, exactly as in the Go standard library);
* HCL documents (`hclwrite.File` / `Block` / `Body`) are modelled by
  `HBlock` trees whose attribute expressions are token lists (`HTok`);
* the external gojq library is abstracted: a parsed program is modelled
  by the stream of values/error values its iterator yields.
-/

/-- One scanning step of Go `strings.ReplaceAll`: `skip` counts characters
still owed to a previous match of the pattern `p` (they were consumed by
the match and are dropped from the output); at `skip = 0` a match of `p`
emits the replacement `r` and owes `p.length - 1` further characters,
otherwise one character is copied.  Structurally recursive in the string
so that it evaluates inside the kernel.  The callers in this development
never pass an empty pattern. -/
def replaceSkipAux (p r : List Char) : Nat → List Char → List Char
  | _, [] => []
  | Nat.succ k, _ :: cs => replaceSkipAux p r k cs
  | 0, c :: cs =>
    if p.isPrefixOf (c :: cs) then r ++ replaceSkipAux p r (p.length - 1) cs
    else c :: replaceSkipAux p r 0 cs

/-- Go `strings.ReplaceAll(s, old, new)` on character lists: replace all
leftmost non-overlapping occurrences of `p` by `r`. -/
def replaceAllList (p r s : List Char) : List Char := replaceSkipAux p r 0 s

/-- Go `strings.ReplaceAll(s, old, new)`. -/
def replaceAll (s old new : String) : String :=
  String.mk (replaceAllList old.data new.data s.data)

theorem replaceSkipAux_eq_drop (p r : List Char) (s : List Char) :
    ∀ k : Nat, replaceSkipAux p r k s = replaceSkipAux p r 0 (s.drop k) := by
  induction s with
  | nil => intro k; cases k <;> rfl
  | cons c cs ih =>
    intro k
    cases k with
    | zero => rfl
    | succ k =>
      show replaceSkipAux p r k cs = replaceSkipAux p r 0 (cs.drop k)
      exact ih k

theorem replaceAllList_nil (p r : List Char) : replaceAllList p r [] = [] := rfl

theorem replaceAllList_cons (p r : List Char) (c : Char) (cs : List Char) :
    replaceAllList p r (c :: cs) =
      if p.isPrefixOf (c :: cs) then
        r ++ replaceAllList p r (cs.drop (p.length - 1))
      else c :: replaceAllList p r cs := by
  show replaceSkipAux p r 0 (c :: cs) = _
  rw [show replaceSkipAux p r 0 (c :: cs) =
        if p.isPrefixOf (c :: cs) then r ++ replaceSkipAux p r (p.length - 1) cs
        else c :: replaceSkipAux p r 0 cs from rfl]
  rw [replaceSkipAux_eq_drop p r cs (p.length - 1)]
  rfl

theorem isPrefixOfEq {α : Type} [DecidableEq α] {l₁ l₂ : List α} :
    l₁.isPrefixOf l₂ = true ↔ l₁ <+: l₂ := List.isPrefixOf_iff_prefix

theorem pref_of_pref_append_left {α : Type} {a b c : List α}
    (h : a <+: b ++ c) (hl : a.length ≤ b.length) : a <+: b := by
  obtain ⟨t, ht⟩ := h
  have h1 : a = (b ++ c).take a.length := by
    rw [← ht]
    simp
  have h2 : (b ++ c).take a.length = b.take a.length := by
    rw [List.take_append_eq_append_take]
    have h0 : a.length - b.length = 0 := Nat.sub_eq_zero_of_le hl
    simp [h0]
  rw [h1, h2]
  exact List.take_prefix _ _

theorem pref_rev_of_append {α : Type} {a b c : List α}
    (h : a <+: b ++ c) (hl : b.length ≤ a.length) : b <+: a := by
  obtain ⟨t, ht⟩ := h
  have h1 : b = (b ++ c).take b.length := by simp
  have h2 : (b ++ c).take b.length = a.take b.length := by
    rw [← ht, List.take_append_eq_append_take]
    have h0 : b.length - a.length = 0 := Nat.sub_eq_zero_of_le hl
    simp [h0]
  rw [h1, h2]
  exact List.take_prefix _ _

theorem pref_cancel_left {α : Type} {x w z : List α}
    (h : x ++ w <+: x ++ z) : w <+: z := by
  obtain ⟨t, ht⟩ := h
  rw [List.append_assoc] at ht
  exact ⟨t, List.append_cancel_left ht⟩

theorem drop_append_of_le_len {α : Type} :
    ∀ (n : Nat) (a b : List α), n ≤ a.length → (a ++ b).drop n = a.drop n ++ b := by
  intro n a
  induction a generalizing n with
  | nil =>
    intro b h
    have : n = 0 := by simpa using h
    simp [this]
  | cons x xs ih =>
    intro b h
    cases n with
    | zero => simp
    | succ n =>
      show (xs ++ b).drop n = xs.drop n ++ b
      exact ih n b (by simpa using h)

theorem drop_append_len {α : Type} :
    ∀ (a b : List α) (k : Nat), (a ++ b).drop (a.length + k) = b.drop k := by
  intro a
  induction a with
  | nil => intro b k; simp
  | cons x xs ih =>
    intro b k
    have h : (x :: xs).length + k = (xs.length + k) + 1 := by
      simp [List.length_cons]
      omega
    rw [h]
    show (xs ++ b).drop (xs.length + k) = b.drop k
    exact ih b k

theorem inf_iff_drop {α : Type} {p l : List α} :
    p <:+: l ↔ ∃ n, p <+: l.drop n := by
  constructor
  · rintro ⟨x, y, hxy⟩
    refine ⟨x.length, ?_⟩
    have hdrop : l.drop x.length = p ++ y := by
      rw [← hxy, List.append_assoc]
      exact List.drop_left x (p ++ y)
    rw [hdrop]
    exact ⟨y, rfl⟩
  · rintro ⟨n, t, ht⟩
    refine ⟨l.take n, t, ?_⟩
    rw [List.append_assoc, ht]
    exact List.take_append_drop n l

theorem inf_of_pref {α : Type} {p l : List α} (h : p <+: l) : p <:+: l := by
  obtain ⟨t, ht⟩ := h
  exact ⟨[], t, by simpa using ht⟩

theorem inf_cons_of_inf {α : Type} {p cs : List α} (c : α)
    (h : p <:+: cs) : p <:+: c :: cs := by
  obtain ⟨x, y, hxy⟩ := h
  exact ⟨c :: x, y, by simp [hxy]⟩

theorem cons_pref {α : Type} {a b : α} {l₁ l₂ : List α} :
    a :: l₁ <+: b :: l₂ ↔ a = b ∧ l₁ <+: l₂ := List.cons_prefix_cons

theorem not_inf_nil {α : Type} {p : List α} (hp : p ≠ []) :
    ¬ p <:+: ([] : List α) := by
  rintro ⟨x, y, hxy⟩
  have := List.append_eq_nil.mp hxy
  have := List.append_eq_nil.mp this.1
  exact hp this.2

theorem replaceAllList_eq_self (p r : List Char) :
    ∀ s : List Char, ¬ p <:+: s → replaceAllList p r s = s := by
  intro s
  induction s with
  | nil => intro _; rfl
  | cons c cs ih =>
    intro h
    rw [replaceAllList_cons]
    rw [if_neg (by
      intro hpre
      exact h (inf_of_pref (isPrefixOfEq.mp hpre)))]
    rw [ih (fun hinf => h (inf_cons_of_inf c hinf))]

theorem replaceAllList_structure_aux (p r : List Char) (hp : p ≠ []) :
    ∀ (n : Nat) (s : List Char), s.length ≤ n →
      replaceAllList p r s = s ∨
        ∃ x y, s = x ++ p ++ y ∧
          replaceAllList p r s = x ++ r ++ replaceAllList p r y := by
  intro n
  induction n with
  | zero =>
    intro s hs
    have : s = [] := List.eq_nil_of_length_eq_zero (Nat.le_zero.mp hs)
    subst this
    left
    rfl
  | succ n ih =>
    intro s hs
    cases s with
    | nil => left; rfl
    | cons c cs =>
      by_cases hpre : p.isPrefixOf (c :: cs) = true
      · right
        obtain ⟨t, ht⟩ := isPrefixOfEq.mp hpre
        obtain ⟨d, p', hdp⟩ : ∃ d p', p = d :: p' := by
          cases p with
          | nil => exact absurd rfl hp
          | cons d p' => exact ⟨d, p', rfl⟩
        have ht' : d :: (p' ++ t) = c :: cs := by
          rw [← List.cons_append, ← hdp, ht]
        have hdc : d = c := (List.cons.injEq _ _ _ _ ▸ ht').1
        have hcs : cs = p' ++ t := ((List.cons.injEq _ _ _ _ ▸ ht').2).symm
        have hdropt : cs.drop (p.length - 1) = t := by
          rw [hcs, hdp]
          show (p' ++ t).drop ((p'.length + 1) - 1) = t
          rw [Nat.add_sub_cancel]
          exact List.drop_left p' t
        refine ⟨[], t, ?_, ?_⟩
        · simp [← ht]
        · rw [replaceAllList_cons, if_pos hpre, hdropt]
          simp
      · rw [replaceAllList_cons, if_neg hpre]
        have hlen : cs.length ≤ n := by
          have := hs
          simp only [List.length_cons] at this
          omega
        rcases ih cs hlen with heq | ⟨x, y, hxy, hrw⟩
        · left
          rw [heq]
        · right
          refine ⟨c :: x, y, by simp [hxy], by rw [hrw]; simp⟩

theorem replaceAllList_structure (p r : List Char) (hp : p ≠ []) (s : List Char) :
    replaceAllList p r s = s ∨
      ∃ x y, s = x ++ p ++ y ∧
        replaceAllList p r s = x ++ r ++ replaceAllList p r y :=
  replaceAllList_structure_aux p r hp s.length s (Nat.le_refl _)

theorem replaceAll_no_match_aux (p r : List Char) (hp : p ≠ [])
    (hlen : p.length ≤ r.length) (h1 : ¬ p <:+: r)
    (h2 : ∀ i, i < r.length → ¬ r.drop i <+: p)
    (h3 : ∀ j, j < p.length → 0 < j → ¬ p.drop j <+: r) :
    ∀ (n : Nat) (s : List Char), s.length ≤ n → ¬ p <:+: replaceAllList p r s := by
  intro n
  induction n with
  | zero =>
    intro s hs
    have : s = [] := List.eq_nil_of_length_eq_zero (Nat.le_zero.mp hs)
    subst this
    rw [replaceAllList_nil]
    exact not_inf_nil hp
  | succ n ih =>
    intro s hs
    cases s with
    | nil =>
      rw [replaceAllList_nil]
      exact not_inf_nil hp
    | cons c cs =>
      have hcs : cs.length ≤ n := by
        simp only [List.length_cons] at hs
        omega
      by_cases hpre : p.isPrefixOf (c :: cs) = true
      · rw [replaceAllList_cons, if_pos hpre]
        intro hinf
        obtain ⟨k, hk⟩ := inf_iff_drop.mp hinf
        by_cases hkr : k < r.length
        · rw [drop_append_of_le_len k r _ (Nat.le_of_lt hkr)] at hk
          by_cases hlp : p.length ≤ (r.drop k).length
          · exact h1 (inf_iff_drop.mpr ⟨k, pref_of_pref_append_left hk hlp⟩)
          · exact h2 k hkr (pref_rev_of_append hk (le_of_not_le hlp))
        · have hkr' : r.length ≤ k := Nat.le_of_not_lt hkr
          obtain ⟨j, rfl⟩ := Nat.exists_eq_add_of_le hkr'
          rw [drop_append_len] at hk
          have hdlen : (cs.drop (p.length - 1)).length ≤ n := by
            have := List.length_drop (p.length - 1) cs
            omega
          exact ih (cs.drop (p.length - 1)) hdlen (inf_iff_drop.mpr ⟨j, hk⟩)
      · rw [replaceAllList_cons, if_neg hpre]
        intro hinf
        obtain ⟨k, hk⟩ := inf_iff_drop.mp hinf
        cases k with
        | succ k' =>
          exact ih cs hcs (inf_iff_drop.mpr ⟨k', hk⟩)
        | zero =>
          rw [List.drop_zero] at hk
          set M := replaceAllList p r cs with hM
          obtain ⟨d, p', hdp⟩ : ∃ d p', p = d :: p' := by
            cases p with
            | nil => exact absurd rfl hp
            | cons d p' => exact ⟨d, p', rfl⟩
          rw [hdp] at hk
          obtain ⟨hdc, hpM⟩ := cons_pref.mp hk
          rcases replaceAllList_structure p r hp cs with heq | ⟨x, y, hcs_eq, hrw⟩
          · rw [← hM] at heq
            rw [heq] at hpM
            apply hpre
            apply isPrefixOfEq.mpr
            rw [hdp]
            exact cons_pref.mpr ⟨hdc, hpM⟩
          · rw [← hM] at hrw
            rw [hrw, List.append_assoc] at hpM
            by_cases hxlen : p'.length ≤ x.length
            · have hpx : p' <+: x := pref_of_pref_append_left hpM hxlen
              have hpcx : p <+: c :: x := by
                rw [hdp]
                exact cons_pref.mpr ⟨hdc, hpx⟩
              have hxcs : (c :: x) <+: (c :: cs) :=
                cons_pref.mpr ⟨rfl, ⟨p ++ y, by rw [hcs_eq]; simp⟩⟩
              exact hpre (isPrefixOfEq.mpr (hpcx.trans hxcs))
            · have hxl : x.length ≤ p'.length := le_of_not_le hxlen
              have hxp : x <+: p' := pref_rev_of_append hpM hxl
              obtain ⟨w, hw⟩ := hxp
              have hwz : w <+: r ++ replaceAllList p r y :=
                pref_cancel_left (by rw [hw]; exact hpM)
              have hp'len : p'.length = x.length + w.length := by
                rw [← hw]
                simp
              have hplen : p.length = p'.length + 1 := by
                rw [hdp]
                simp
              have hwlen : w.length ≤ r.length := by omega
              have hwr : w <+: r := pref_of_pref_append_left hwz hwlen
              have hdropw : p.drop (x.length + 1) = w := by
                rw [hdp]
                show p'.drop x.length = w
                rw [← hw]
                exact List.drop_left x w
              have hj2 : x.length + 1 < p.length := by omega
              exact h3 (x.length + 1) hj2 (Nat.succ_pos _) (hdropw ▸ hwr)

theorem replaceAll_no_match (p r : List Char) (hp : p ≠ [])
    (hlen : p.length ≤ r.length) (h1 : ¬ p <:+: r)
    (h2 : ∀ i, i < r.length → ¬ r.drop i <+: p)
    (h3 : ∀ j, j < p.length → 0 < j → ¬ p.drop j <+: r)
    (s : List Char) : ¬ p <:+: replaceAllList p r s :=
  replaceAll_no_match_aux p r hp hlen h1 h2 h3 s.length s (Nat.le_refl _)

theorem replaceAllList_idem (p r : List Char) (hp : p ≠ [])
    (hlen : p.length ≤ r.length) (h1 : ¬ p <:+: r)
    (h2 : ∀ i, i < r.length → ¬ r.drop i <+: p)
    (h3 : ∀ j, j < p.length → 0 < j → ¬ p.drop j <+: r)
    (s : List Char) :
    replaceAllList p r (replaceAllList p r s) = replaceAllList p r s :=
  replaceAllList_eq_self p r _ (replaceAll_no_match p r hp hlen h1 h2 h3 s)

/-- First pre-parse substitution of `parseHCL` and `LoadTFConf`
(`lib/parse.go`): double every percent-brace sequence so that it is not
taken for HCL template interpolation. -/
def escapePercentBrace (s : String) : String := replaceAll s "%\x7b" "%%\x7b"

/-- Second pre-parse substitution of `parseHCL` (`lib/parse.go` line 19):
re-quote the sentinel that `terraform show` prints for masked sensitive
values. -/
def quoteSensitive (s : String) : String :=
  replaceAll s "(sensitive value)" "\"(sensitive value)\""

/-- Second pre-parse substitution of `LoadTFConf` (`lib/parse.go` line 604):
re-quote the masked-sensitive sentinel, anchored to an attribute
assignment. -/
def quoteSensitiveAssign (s : String) : String :=
  replaceAll s " = (sensitive value)" " = \"(sensitive value)\""

/-- The complete pre-parse substitution step of `parseHCL`. -/
def parseHCLSubstitutions (s : String) : String :=
  quoteSensitive (escapePercentBrace s)

/-- The complete pre-parse substitution step of `LoadTFConf`. -/
def loadTFConfSubstitutions (s : String) : String :=
  quoteSensitiveAssign (escapePercentBrace s)

/-- C2 counterexample: the pre-parse substitution step is not idempotent.
On the one-character-pair input consisting of a percent sign and an opening
brace, the step produces a doubled percent, and running the step again on
that output doubles the percent again, in both the `parseHCL` and the
`LoadTFConf` variant. -/
theorem c2_counterexample :
    parseHCLSubstitutions (parseHCLSubstitutions "%\x7b") ≠
      parseHCLSubstitutions "%\x7b" ∧
    loadTFConfSubstitutions (loadTFConfSubstitutions "%\x7b") ≠
      loadTFConfSubstitutions "%\x7b" := by
  constructor <;> decide

/-- C2 (amended): of the pre-parse text substitutions, only the
masked-sensitive re-quoting of `LoadTFConf` (whose pattern requires the
assignment context and whose replacement therefore contains no further
match) is idempotent on every input string; the percent-brace doubling is
not idempotent (doubling an already-doubled percent again), and the bare
sentinel re-quoting of `parseHCL` is not idempotent either (it wraps the
already-quoted sentinel in a second pair of quotes). -/
theorem c2_theorem :
    (∀ s : String,
        quoteSensitiveAssign (quoteSensitiveAssign s) = quoteSensitiveAssign s) ∧
    escapePercentBrace (escapePercentBrace "%\x7b") ≠ escapePercentBrace "%\x7b" ∧
    quoteSensitive (quoteSensitive "(sensitive value)") ≠
      quoteSensitive "(sensitive value)" := by
  refine ⟨?_, by decide, by decide⟩
  intro s
  refine congrArg String.mk ?_
  exact replaceAllList_idem _ _ (by decide) (by decide) (by decide) (by decide)
    (by decide) s.data

/-- Go `strings.ToLower` (restricted to ASCII case mapping, which is all the
resource-name machinery relies on). -/
def toLowerStr (s : String) : String := String.mk (s.data.map Char.toLower)

/-- Go `normalizeName` (`lib/props.go` lines 262-268): lower-case, then
replace dot, newline, tab and space with underscore. -/
def normalizeName (name : String) : String :=
  replaceAll (replaceAll (replaceAll (replaceAll (toLowerStr name)
    "." "_") "\n" "_") "\t" "_") " " "_"

/-- Character class admitted by `isValidResourceName` for the first
character: `[A-Za-z_]`. -/
def isTFNameHeadChar (c : Char) : Bool := c.isAlpha || c = '_'

/-- Character class admitted by `isValidResourceName` for the remaining
characters.  The Go regexp is written in a raw string as
`[0-9A-Za-z_.\-\\s]`, whose members are the digits, the ASCII letters,
underscore, dot, dash, a literal backslash and the (redundant, already a
letter) literal `s`; the class does not match whitespace. -/
def isTFNameTailChar (c : Char) : Bool :=
  c.isAlphanum || c = '_' || c = '.' || c = '-' || c = '\\' || c = 's'

/-- Go `isValidResourceName` (`lib/props.go` lines 270-281): full-string
match of the anchored regexp. -/
def isValidResourceName (name : String) : Bool :=
  match name.data with
  | [] => false
  | c :: cs => isTFNameHeadChar c && cs.all isTFNameTailChar

/-- Go struct `VCLServiceResourceProp` (`lib/props.go`). -/
structure VCLServiceResourceProp where
  ID : String
  Name : String
  Version : Int
  TargetVersion : Int

def VCLServiceResourceProp.GetType (_ : VCLServiceResourceProp) : String :=
  "fastly_service_vcl"

def VCLServiceResourceProp.GetName (v : VCLServiceResourceProp) : String :=
  v.Name

/-- Go `VCLServiceResourceProp.GetNormalizedName` (`lib/props.go` lines
53-61): normalize the service name, falling back to the fixed name
`service` when the normalized name fails the resource-name check.  The
source assigns the normalized name to a variable and conditionally
overwrites it; the conditional expression below is the same function. -/
def VCLServiceResourceProp.GetNormalizedName (v : VCLServiceResourceProp) : String :=
  if isValidResourceName (normalizeName v.GetName) then normalizeName v.GetName
  else "service"

/-- C6: name normalization is deterministic; normalizing `My Snippet.v2`
yields `my_snippet_v2`, and whenever the normalized service name fails the
identifier-validity check, `GetNormalizedName` returns the fixed fallback
name `service`. -/
theorem c6_theorem :
    normalizeName "My Snippet.v2" = "my_snippet_v2" ∧
    ∀ v : VCLServiceResourceProp,
      isValidResourceName (normalizeName v.GetName) = false →
        v.GetNormalizedName = "service" := by
  constructor
  · decide
  · intro v h
    unfold VCLServiceResourceProp.GetNormalizedName
    simp [h]

/-- C6 witness: the service name `123` normalizes to `123`, which fails the
identifier-validity check, so the fallback name is returned. -/
theorem c6_witness :
    VCLServiceResourceProp.GetNormalizedName ⟨"sid", "123", 1, 0⟩ = "service" :=
  c6_theorem.2 ⟨"sid", "123", 1, 0⟩ (by decide)

/-- C10: the derived service resource name used in cross-references is
always syntactically valid: `GetNormalizedName` returns the normalized
name exactly when that name passes `isValidResourceName`, returns
`service` otherwise, and its result passes `isValidResourceName` in every
case. -/
theorem c10_theorem (v : VCLServiceResourceProp) :
    isValidResourceName v.GetNormalizedName = true ∧
    (isValidResourceName (normalizeName v.GetName) = true →
      v.GetNormalizedName = normalizeName v.GetName) ∧
    (isValidResourceName (normalizeName v.GetName) = false →
      v.GetNormalizedName = "service") := by
  refine ⟨?_, ?_, ?_⟩
  · by_cases h : isValidResourceName (normalizeName v.GetName) = true
    · unfold VCLServiceResourceProp.GetNormalizedName
      rw [if_pos h]
      exact h
    · unfold VCLServiceResourceProp.GetNormalizedName
      rw [if_neg h]
      decide
  · intro h
    unfold VCLServiceResourceProp.GetNormalizedName
    rw [if_pos h]
  · intro h
    unfold VCLServiceResourceProp.GetNormalizedName
    rw [if_neg (by simp [h])]

/-- C10 witness: for the service name `My Snippet.v2` the normalized name
passes the check and is returned; it is itself valid. -/
theorem c10_witness :
    VCLServiceResourceProp.GetNormalizedName ⟨"sid", "My Snippet.v2", 1, 0⟩ =
      normalizeName "My Snippet.v2" :=
  ( c10_theorem ⟨"sid", "My Snippet.v2", 1, 0⟩).2.1 (by decide)

/-- Association-list lookup (first entry with the key wins), used both for
HCL body attributes (`hclwrite.Body.GetAttribute`) and for Go string maps
and JSON objects. -/
def lookupKV {α : Type} (k : String) : List (String × α) → Option α
  | [] => none
  | a :: rest => if a.1 = k then some a.2 else lookupKV k rest

/-- Association-list update: replace the first entry with the key in place,
append a new entry otherwise.  This is the semantics of
`hclwrite.Body.SetAttributeValue` / `SetAttributeRaw` /
`SetAttributeTraversal` (update an existing attribute, add a new one at the
end of the body otherwise) and of a jq `setpath` update on an object. -/
def setKV {α : Type} (k : String) (v : α) : List (String × α) → List (String × α)
  | [] => [(k, v)]
  | a :: rest => if a.1 = k then (k, v) :: rest else a :: setKV k v rest

/-- Association-list removal of every entry with the key; the semantics of
`hclwrite.Body.RemoveAttribute` (bodies produced by the HCL parser carry at
most one attribute per name). -/
def removeKV {α : Type} (k : String) : List (String × α) → List (String × α)
  | [] => []
  | a :: rest => if a.1 = k then removeKV k rest else a :: removeKV k rest

/-- HCL expression tokens, the granularity at which
`getStringAttributeValue` and the raw-token setters operate. -/
inductive HTok where
  | quotedLit (s : String)
  | ident (s : String)
  | sym (s : String)
deriving DecidableEq

/-- Tokens produced by `SetAttributeValue` with `cty.StringVal`. -/
def strLitTokens (v : String) : List HTok :=
  [HTok.sym "\"", HTok.quotedLit v, HTok.sym "\""]

/-- Tokens produced by `SetAttributeValue` with `cty.BoolVal`. -/
def boolTokens (b : Bool) : List HTok :=
  [HTok.ident (if b then "true" else "false")]

/-- Go `getFileFunction` / `buildFileFunction` (`lib/parse.go`): the token
sequence of a `file("path")` expression. -/
def fileFunctionTokens (path : String) : List HTok :=
  [HTok.ident "file", HTok.sym "(", HTok.sym "\"", HTok.quotedLit path,
    HTok.sym "\"", HTok.sym ")"]

/-- An `hclwrite.Block`: type tag, labels, body attributes and nested
blocks. -/
inductive HBlock where
  | mk (btype : String) (labels : List String)
      (attrs : List (String × List HTok)) (blocks : List HBlock)

def HBlock.btype : HBlock → String
  | .mk t _ _ _ => t

def HBlock.labels : HBlock → List String
  | .mk _ l _ _ => l

def HBlock.attrs : HBlock → List (String × List HTok)
  | .mk _ _ a _ => a

def HBlock.blocks : HBlock → List HBlock
  | .mk _ _ _ b => b

def HBlock.getAttr (b : HBlock) (k : String) : Option (List HTok) :=
  lookupKV k b.attrs

def HBlock.removeAttribute (b : HBlock) (k : String) : HBlock :=
  ⟨b.btype, b.labels, removeKV k b.attrs, b.blocks⟩

def HBlock.setAttributeRaw (b : HBlock) (k : String) (toks : List HTok) : HBlock :=
  ⟨b.btype, b.labels, setKV k toks b.attrs, b.blocks⟩

def HBlock.setAttributeValue (b : HBlock) (k v : String) : HBlock :=
  b.setAttributeRaw k (strLitTokens v)

/-- Scan of the expression tokens for the first `TokenQuotedLit`, as in
`getStringAttributeValue`. -/
def firstQuotedLit : List HTok → Option String
  | [] => none
  | HTok.quotedLit s :: _ => some s
  | _ :: ts => firstQuotedLit ts

/-- Go `getStringAttributeValue` (`lib/parse.go`): look the attribute up in
the block body and extract the first quoted-literal token of its
expression; both a missing attribute and a literal-free expression are
errors. -/
def getStringAttributeValue (block : HBlock) (attrKey : String) :
    Except String String :=
  match block.getAttr attrKey with
  | none => Except.error ("failed to find " ++ attrKey)
  | some toks =>
    match firstQuotedLit toks with
    | none => Except.error "failed to find TokenQuotedLit"
    | some v => Except.ok v

/-- Go `strings.HasPrefix(s, pre)`. -/
def hasPrefixStr (s pre : String) : Bool := pre.data.isPrefixOf s.data

/-- The descriptor ("Prop") sum type of `lib/props.go`.  The back-pointer
to the owning `VCLServiceResourceProp` that every Go prop struct embeds is
carried separately by the functions below; `SensitiveValues` maps are
association lists. -/
inductive TFBlockProp where
  | acl (id name : String)
  | backend (name : String) (sensitiveValues : List (String × String))
  | dictionary (id name : String)
  | waf (id : String)
  | dynamicsnippet (id name : String)
  | snippet (name : String)
  | vcl (name : String)
  | logging (name endpointType : String) (isJSON : Bool)
      (sensitiveValues : List (String × String))
  | placeholder
deriving DecidableEq

def NewACLResourceProp (id name : String) (_sp : VCLServiceResourceProp) :
    TFBlockProp := TFBlockProp.acl id name

def NewBackendBlockProp (name : String) (_sp : VCLServiceResourceProp) :
    TFBlockProp := TFBlockProp.backend name []

def NewDictionaryResourceProp (id name : String) (_sp : VCLServiceResourceProp) :
    TFBlockProp := TFBlockProp.dictionary id name

def NewWAFResourceProp (id : String) (_sp : VCLServiceResourceProp) :
    TFBlockProp := TFBlockProp.waf id

def NewDynamicSnippetResourceProp (id name : String)
    (_sp : VCLServiceResourceProp) : TFBlockProp :=
  TFBlockProp.dynamicsnippet id name

def NewSnippetBlockProp (name : String) (_sp : VCLServiceResourceProp) :
    TFBlockProp := TFBlockProp.snippet name

def NewVCLBlockProp (name : String) (_sp : VCLServiceResourceProp) :
    TFBlockProp := TFBlockProp.vcl name

def NewLoggingBlockProp (name endpointType : String)
    (_sp : VCLServiceResourceProp) : TFBlockProp :=
  TFBlockProp.logging name endpointType false []

def NewPlaceholderProp (_sp : VCLServiceResourceProp) : TFBlockProp :=
  TFBlockProp.placeholder

/-- The per-block dispatch of `ParseVCLServiceResource` (`lib/parse.go`
lines 51-130): build one descriptor from one nested block, extracting
identifying attributes as string literals; unrecognized block types yield a
placeholder descriptor. -/
def classifyNestedBlock (sp : VCLServiceResourceProp) (b : HBlock) :
    Except String TFBlockProp :=
  let bt := b.btype
  if bt = "acl" then
    match getStringAttributeValue b "acl_id", getStringAttributeValue b "name" with
    | Except.ok id, Except.ok name => Except.ok (NewACLResourceProp id name sp)
    | Except.error e, _ => Except.error e
    | _, Except.error e => Except.error e
  else if bt = "backend" then
    match getStringAttributeValue b "name" with
    | Except.ok name => Except.ok (NewBackendBlockProp name sp)
    | Except.error e => Except.error e
  else if bt = "dictionary" then
    match getStringAttributeValue b "dictionary_id",
        getStringAttributeValue b "name" with
    | Except.ok id, Except.ok name => Except.ok (NewDictionaryResourceProp id name sp)
    | Except.error e, _ => Except.error e
    | _, Except.error e => Except.error e
  else if bt = "waf" then
    match getStringAttributeValue b "waf_id" with
    | Except.ok id => Except.ok (NewWAFResourceProp id sp)
    | Except.error e => Except.error e
  else if bt = "dynamicsnippet" then
    match getStringAttributeValue b "snippet_id",
        getStringAttributeValue b "name" with
    | Except.ok id, Except.ok name =>
      Except.ok (NewDynamicSnippetResourceProp id name sp)
    | Except.error e, _ => Except.error e
    | _, Except.error e => Except.error e
  else if bt = "snippet" then
    match getStringAttributeValue b "name" with
    | Except.ok name => Except.ok (NewSnippetBlockProp name sp)
    | Except.error e => Except.error e
  else if bt = "vcl" then
    match getStringAttributeValue b "name" with
    | Except.ok name => Except.ok (NewVCLBlockProp name sp)
    | Except.error e => Except.error e
  else if hasPrefixStr bt "logging_" then
    match getStringAttributeValue b "name" with
    | Except.ok name => Except.ok (NewLoggingBlockProp name bt sp)
    | Except.error e => Except.error e
  else
    Except.ok (NewPlaceholderProp sp)

/-- The classification loop of `ParseVCLServiceResource`: one descriptor is
appended per nested block, stopping at the first extraction error. -/
def classifyNestedBlocks (sp : VCLServiceResourceProp) :
    List HBlock → Except String (List TFBlockProp)
  | [] => Except.ok []
  | b :: bs =>
    match classifyNestedBlock sp b with
    | Except.error e => Except.error e
    | Except.ok p =>
      match classifyNestedBlocks sp bs with
      | Except.error e => Except.error e
      | Except.ok ps => Except.ok (p :: ps)

/-- Go `ParseVCLServiceResource` (`lib/parse.go` lines 29-133), after the
textual parse: require exactly one top-level block, of type `resource`
with the service type label, then classify its nested blocks in order.
Go would panic on a labelless block where it indexes `Labels()[0]`; this
is modelled as an error. -/
def ParseVCLServiceResource (serviceProp : VCLServiceResourceProp)
    (doc : List HBlock) : Except String (List TFBlockProp) :=
  match doc with
  | [block] =>
    if block.btype ≠ "resource" then Except.error "Unexpected Terraform block"
    else
      match block.labels with
      | [] => Except.error "index out of range"
      | l :: _ =>
        if l ≠ serviceProp.GetType then Except.error "Unexpected Terraform block"
        else classifyNestedBlocks serviceProp block.blocks
  | _ => Except.error "Number of VCLServiceResourceProp should be 1"

/-- A parsed Terraform configuration (`TFConf` wraps the parsed
`hclwrite.File`; only its top-level block list matters here). -/
structure TFConf where
  body : List HBlock

/-- The fields of the Go `Config` struct consulted by the rewrite
functions modelled here. -/
structure Config where
  ManageAll : Bool
  Directory : String

/-- The classification loop of `TFConf.ParseVCLServiceResource`
(`lib/parse.go` lines 634-679): only `acl`, `dictionary`, `waf` and
`dynamicsnippet` blocks produce a descriptor; every other nested block is
skipped without appending anything. -/
def TFConf.classifyNestedBlocks (sp : VCLServiceResourceProp) :
    List HBlock → Except String (List TFBlockProp)
  | [] => Except.ok []
  | b :: bs =>
    let bt := b.btype
    if bt = "acl" ∨ bt = "dictionary" ∨ bt = "waf" ∨ bt = "dynamicsnippet" then
      match classifyNestedBlock sp b with
      | Except.error e => Except.error e
      | Except.ok p =>
        match TFConf.classifyNestedBlocks sp bs with
        | Except.error e => Except.error e
        | Except.ok ps => Except.ok (p :: ps)
    else
      TFConf.classifyNestedBlocks sp bs

/-- Go `TFConf.ParseVCLServiceResource` (`lib/parse.go` lines 614-682).
The `Config` argument is accepted and unused, as in the source. -/
def TFConf.ParseVCLServiceResource (tfconf : TFConf)
    (serviceProp : VCLServiceResourceProp) (_c : Config) :
    Except String (List TFBlockProp) :=
  match tfconf.body with
  | [block] =>
    if block.btype ≠ "resource" then Except.error "tfconf: Unexpected Terraform block"
    else
      match block.labels with
      | [] => Except.error "index out of range"
      | l :: _ =>
        if l ≠ serviceProp.GetType then
          Except.error "tfconf: Unexpected Terraform block"
        else TFConf.classifyNestedBlocks serviceProp block.blocks
  | _ => Except.error "tfconf: Number of VCLServiceResourceProp should be 1"

/-- Correspondence between a descriptor variant and the block type it was
built from, as established by the `switch` of `ParseVCLServiceResource`. -/
def propMatchesBlockType (p : TFBlockProp) (bt : String) : Prop :=
  match p with
  | .acl _ _ => bt = "acl"
  | .backend _ _ => bt = "backend"
  | .dictionary _ _ => bt = "dictionary"
  | .waf _ => bt = "waf"
  | .dynamicsnippet _ _ => bt = "dynamicsnippet"
  | .snippet _ => bt = "snippet"
  | .vcl _ => bt = "vcl"
  | .logging _ et _ _ => hasPrefixStr bt "logging_" = true ∧ et = bt
  | .placeholder =>
    bt ≠ "acl" ∧ bt ≠ "backend" ∧ bt ≠ "dictionary" ∧ bt ≠ "waf" ∧
      bt ≠ "dynamicsnippet" ∧ bt ≠ "snippet" ∧ bt ≠ "vcl" ∧
      hasPrefixStr bt "logging_" = false

theorem classifyNestedBlock_matches (sp : VCLServiceResourceProp) (b : HBlock)
    (p : TFBlockProp) (h : classifyNestedBlock sp b = Except.ok p) :
    propMatchesBlockType p b.btype := by
  simp only [classifyNestedBlock] at h
  split_ifs at h with h1 h2 h3 h4 h5 h6 h7 h8 <;>
    try split at h
  all_goals
    first
      | exact Except.noConfusion h
      | (injection h with hh
         subst hh
         simp_all [propMatchesBlockType, NewACLResourceProp, NewBackendBlockProp,
           NewDictionaryResourceProp, NewWAFResourceProp,
           NewDynamicSnippetResourceProp, NewSnippetBlockProp, NewVCLBlockProp,
           NewLoggingBlockProp, NewPlaceholderProp])

theorem classifyNestedBlocks_align (sp : VCLServiceResourceProp) :
    ∀ (bs : List HBlock) (ps : List TFBlockProp),
      classifyNestedBlocks sp bs = Except.ok ps →
      ps.length = bs.length ∧
        ∀ i (h1 : i < ps.length) (h2 : i < bs.length),
          propMatchesBlockType (ps.get ⟨i, h1⟩) (bs.get ⟨i, h2⟩).btype := by
  intro bs
  induction bs with
  | nil =>
    intro ps h
    simp only [classifyNestedBlocks] at h
    injection h with hh
    subst hh
    exact ⟨rfl, by intro i h1 h2; simp at h1⟩
  | cons b bs ih =>
    intro ps h
    simp only [classifyNestedBlocks] at h
    cases hb : classifyNestedBlock sp b with
    | error e => rw [hb] at h; exact Except.noConfusion h
    | ok p =>
      rw [hb] at h
      cases hrest : classifyNestedBlocks sp bs with
      | error e => rw [hrest] at h; exact Except.noConfusion h
      | ok ps' =>
        rw [hrest] at h
        injection h with hh
        subst hh
        obtain ⟨hlen, hpt⟩ := ih ps' hrest
        constructor
        · simp [hlen]
        · intro i h1 h2
          cases i with
          | zero => simpa using classifyNestedBlock_matches sp b p hb
          | succ i =>
            have h1' : i < ps'.length := by simpa using h1
            have h2' : i < bs.length := by simpa using h2
            simpa using hpt i h1' h2'

/-- C1 (amended): `ParseVCLServiceResource` produces exactly one descriptor
per nested block of the single service resource block, in nested-block
order, with a placeholder descriptor for every unrecognized block type, so
the descriptor list has the same length and block-type sequence as the
nested-block list that `rewriteVCLServiceResource` walks and indexes by
position. -/
theorem c1_theorem (serviceProp : VCLServiceResourceProp) (doc : List HBlock)
    (props : List TFBlockProp)
    (h : ParseVCLServiceResource serviceProp doc = Except.ok props) :
    ∃ block, doc = [block] ∧ props.length = block.blocks.length ∧
      ∀ i (h1 : i < props.length) (h2 : i < block.blocks.length),
        propMatchesBlockType (props.get ⟨i, h1⟩) ((block.blocks).get ⟨i, h2⟩).btype := by
  cases doc with
  | nil => exact absurd h (by simp [ParseVCLServiceResource])
  | cons block rest =>
    cases rest with
    | cons b2 r2 => exact absurd h (by simp [ParseVCLServiceResource])
    | nil =>
      refine ⟨block, rfl, ?_⟩
      simp only [ParseVCLServiceResource] at h
      by_cases ht : block.btype ≠ "resource"
      · rw [if_pos ht] at h
        exact Except.noConfusion h
      · rw [if_neg ht] at h
        cases hl : block.labels with
        | nil =>
          rw [hl] at h
          exact Except.noConfusion h
        | cons l ls =>
          rw [hl] at h
          simp only [] at h
          by_cases hlt : l ≠ serviceProp.GetType
          · rw [if_pos hlt] at h
            exact Except.noConfusion h
          · rw [if_neg hlt] at h
            exact classifyNestedBlocks_align serviceProp block.blocks props h

/-- The service descriptor used by the concrete examples. -/
def demoServiceProp : VCLServiceResourceProp :=
  ⟨"6gjZ23Y0k6TApEs5PxzYuT", "demo", 1, 0⟩

def exampleACLBlock : HBlock :=
  ⟨"acl", [],
    [("acl_id", strLitTokens "abc"), ("name", strLitTokens "My ACL")], []⟩

def exampleUnknownBlock : HBlock :=
  ⟨"healthcheck", [], [("name", strLitTokens "hc")], []⟩

def exampleServiceBlock : HBlock :=
  ⟨"resource", ["fastly_service_vcl", "service"], [],
    [exampleACLBlock, exampleUnknownBlock]⟩

/-- C1 witness: on a service document with one `acl` block and one
unrecognized `healthcheck` block, classification yields one ACL descriptor
and one placeholder, aligned with the two nested blocks. -/
theorem c1_witness :
    ∃ block, [exampleServiceBlock] = [block] ∧
      ([TFBlockProp.acl "abc" "My ACL", TFBlockProp.placeholder] :
          List TFBlockProp).length = block.blocks.length ∧
      ∀ i (h1 : i < ([TFBlockProp.acl "abc" "My ACL", TFBlockProp.placeholder] :
            List TFBlockProp).length)
        (h2 : i < block.blocks.length),
        propMatchesBlockType
          (([TFBlockProp.acl "abc" "My ACL", TFBlockProp.placeholder] :
              List TFBlockProp).get ⟨i, h1⟩)
          ((block.blocks).get ⟨i, h2⟩).btype :=
  c1_theorem demoServiceProp [exampleServiceBlock]
    [TFBlockProp.acl "abc" "My ACL", TFBlockProp.placeholder] (by rfl)

/-- A document whose single service resource block contains exactly one
nested block, of type `backend`. -/
def tfconfBackendDoc : TFConf :=
  ⟨[⟨"resource", ["fastly_service_vcl", "service"], [],
    [⟨"backend", [], [("name", strLitTokens "origin")], []⟩]⟩]⟩

/-- C1 counterexample: `TFConf.ParseVCLServiceResource` does not produce
one descriptor per nested block: on a service document with exactly one
nested `backend` block it returns an empty descriptor list (no placeholder
is emitted), so the descriptor list is shorter than the nested-block
list. -/
theorem c1_counterexample :
    TFConf.ParseVCLServiceResource tfconfBackendDoc demoServiceProp
        ⟨false, "."⟩ = Except.ok [] ∧
    tfconfBackendDoc.body.map (fun b => b.blocks.length) = [1] :=
  ⟨rfl, rfl⟩

/-- Go `getServiceIDReference` / `buildServiceIDRef` (`lib/parse.go`): the
token rendering of the traversal `<service type>.<normalized name>.id`. -/
def buildServiceIDRef (sp : VCLServiceResourceProp) : List HTok :=
  [HTok.ident sp.GetType, HTok.sym ".", HTok.ident sp.GetNormalizedName,
    HTok.sym ".", HTok.ident "id"]

/-- Token rendering of the positional WAF traversal
`<service type>.<normalized name>.waf[0].waf_id` set by
`rewriteWAFResource`. -/
def wafIDRefTokens (sp : VCLServiceResourceProp) : List HTok :=
  [HTok.ident sp.GetType, HTok.sym ".", HTok.ident sp.GetNormalizedName,
    HTok.sym ".", HTok.ident "waf", HTok.sym "[", HTok.sym "0", HTok.sym "]",
    HTok.sym ".", HTok.ident "waf_id"]

/-- One `SensitiveValues` lookup followed by `SetAttributeValue`, the step
repeated by every arm of the logging-endpoint switch in the first
`rewriteVCLServiceResource` (`lib/parse.go` lines 260-439); a missing
sensitive value is the error the source returns. -/
def setSensitiveAttr (sens : List (String × String)) (sensKey attrName : String)
    (b : HBlock) : HBlock × Option String :=
  match lookupKV sensKey sens with
  | none => (b, some ("Sensitive value not found for " ++ sensKey))
  | some v => (b.setAttributeValue attrName v, none)

/-- Sequencing of in-place block edits that may fail: on an error the block
mutated so far is kept (the Go code mutates the body before returning the
error) and the continuation is skipped. -/
def andThenB (r : HBlock × Option String)
    (f : HBlock → HBlock × Option String) : HBlock × Option String :=
  match r with
  | (b, some e) => (b, some e)
  | (b, none) => f b

/-- The per-endpoint sensitive-attribute switch of the first
`rewriteVCLServiceResource` (`lib/parse.go` lines 260-439), one arm per
`logging_*` subtype.  `logging_logentries`, `logging_papertrail`,
`logging_sumologic` and unknown subtypes set nothing.  In the `logging_s3`
arm the source does not check the presence flag of the second lookup, so a
missing `s3_secret_key` writes the Go zero string. -/
def applyLoggingSensitiveV1 (etype : String) (sens : List (String × String))
    (b : HBlock) : HBlock × Option String :=
  if etype = "logging_bigquery" then
    andThenB (setSensitiveAttr sens "bigquery_email" "email" b)
      (setSensitiveAttr sens "bigquery_secret_key" "secret_key")
  else if etype = "logging_blobstorage" then
    setSensitiveAttr sens "blobstorage_sas_token" "sas_token" b
  else if etype = "logging_cloudfiles" then
    setSensitiveAttr sens "cloudfiles_access_key" "access_key" b
  else if etype = "logging_datadog" then
    setSensitiveAttr sens "datadog_token" "token" b
  else if etype = "logging_digitalocean" then
    andThenB (setSensitiveAttr sens "digitalocean_access_key" "access_key" b)
      (setSensitiveAttr sens "digitalocean_secret_key" "secret_key")
  else if etype = "logging_elasticsearch" then
    andThenB (setSensitiveAttr sens "elasticsearch_password" "password" b)
      (setSensitiveAttr sens "elasticsearch_tls_client_key" "tls_client_key")
  else if etype = "logging_ftp" then
    setSensitiveAttr sens "ftp_password" "password" b
  else if etype = "logging_gcs" then
    setSensitiveAttr sens "gcs_secret_key" "secret_key" b
  else if etype = "logging_googlepubsub" then
    setSensitiveAttr sens "pubsub_secret_key" "secret_key" b
  else if etype = "logging_heroku" then
    setSensitiveAttr sens "heroku_token" "token" b
  else if etype = "logging_honeycomb" then
    setSensitiveAttr sens "honeycomb_token" "token" b
  else if etype = "logging_https" then
    setSensitiveAttr sens "https_tls_client_key" "tls_client_key" b
  else if etype = "logging_kafka" then
    andThenB (setSensitiveAttr sens "kafka_password" "password" b)
      (setSensitiveAttr sens "kafka_tls_client_key" "tls_client_key")
  else if etype = "logging_kinesis" then
    andThenB (setSensitiveAttr sens "kinesis_access_key" "access_key" b)
      (setSensitiveAttr sens "kinesis_secret_key" "secret_key")
  else if etype = "logging_loggly" then
    setSensitiveAttr sens "loggly_token" "token" b
  else if etype = "logging_logshuttle" then
    setSensitiveAttr sens "logshuttle_token" "token" b
  else if etype = "logging_newrelic" then
    setSensitiveAttr sens "newrelic_token" "token" b
  else if etype = "logging_openstack" then
    setSensitiveAttr sens "openstack_access_key" "access_key" b
  else if etype = "logging_s3" then
    andThenB (setSensitiveAttr sens "s3_access_key" "s3_access_key" b)
      (fun b =>
        (b.setAttributeValue "s3_secret_key"
          ((lookupKV "s3_secret_key" sens).getD ""), none))
  else if etype = "logging_scalyr" then
    setSensitiveAttr sens "scalyr_token" "token" b
  else if etype = "logging_sftp" then
    andThenB (setSensitiveAttr sens "sftp_password" "password" b)
      (setSensitiveAttr sens "sftp_secret_key" "secret_key")
  else if etype = "logging_splunk" then
    andThenB (setSensitiveAttr sens "splunk_tls_client_key" "tls_client_key" b)
      (setSensitiveAttr sens "splunk_token" "token")
  else if etype = "logging_syslog" then
    setSensitiveAttr sens "syslog_tls_client_key" "tls_client_key" b
  else (b, none)

/-- The per-nested-block arm of the first `rewriteVCLServiceResource`
(`lib/parse.go` lines 185-442), dispatching on the block type with the
positionally indexed descriptor `props[i]`.  The Go index panic is
modelled as an error.  In the `backend` arm the source writes the
`ssl_client_key` value to the `ssl_client_cert` attribute (line 211). -/
def rewriteServiceNestedV1 (props : List TFBlockProp) (i : Nat) (b : HBlock) :
    HBlock × Option String :=
  let bt := b.btype
  if bt = "acl" then (b.removeAttribute "acl_id", none)
  else if bt = "backend" then
    match props.get? i with
    | none => (b, some "index out of range")
    | some (TFBlockProp.backend _name sens) =>
      match lookupKV "ssl_client_cert" sens with
      | none => (b, some "Sensitive value not found for the backend")
      | some cert =>
        let b1 := if cert ≠ "" then b.setAttributeValue "ssl_client_cert" cert else b
        match lookupKV "ssl_client_key" sens with
        | none => (b1, some "Sensitive value not found for the backend")
        | some key =>
          let b2 := if key ≠ "" then b1.setAttributeValue "ssl_client_cert" key else b1
          (b2, none)
    | some _ => (b, some "Expected *BackendBlockProp")
  else if bt = "dictionary" then (b.removeAttribute "dictionary_id", none)
  else if bt = "waf" then (b.removeAttribute "waf_id", none)
  else if bt = "dynamicsnippet" then (b.removeAttribute "snippet_id", none)
  else if bt = "snippet" then
    match getStringAttributeValue b "name" with
    | Except.error e => (b, some e)
    | Except.ok name =>
      (b.setAttributeRaw "content"
        (fileFunctionTokens ("./vcl/snippet_" ++ normalizeName name ++ ".vcl")),
        none)
  else if bt = "vcl" then
    match getStringAttributeValue b "name" with
    | Except.error e => (b, some e)
    | Except.ok name =>
      (b.setAttributeRaw "content"
        (fileFunctionTokens ("./vcl/" ++ normalizeName name ++ ".vcl")), none)
  else if hasPrefixStr bt "logging_" then
    match props.get? i with
    | none => (b, some "index out of range")
    | some (TFBlockProp.logging _name etype isJSON sens) =>
      match getStringAttributeValue b "name" with
      | Except.error e => (b, some e)
      | Except.ok name =>
        let ext := if isJSON then "json" else "txt"
        let b1 := b.setAttributeRaw "format"
          (fileFunctionTokens ("./logformat/" ++ normalizeName name ++ "." ++ ext))
        applyLoggingSensitiveV1 etype sens b1
    | some _ => (b, some "Expected *LoggingBlockProp")
  else (b, none)

/-- The nested-block loop of the first `rewriteVCLServiceResource`: blocks
are rewritten in order with the running index into `props`; on an error
the remaining blocks are left untouched. -/
def rewriteServiceBlocksV1 (props : List TFBlockProp) :
    Nat → List HBlock → List HBlock × Option String
  | _, [] => ([], none)
  | i, b :: bs =>
    match rewriteServiceNestedV1 props i b with
    | (b', some e) => (b' :: bs, some e)
    | (b', none) =>
      match rewriteServiceBlocksV1 props (i + 1) bs with
      | (bs', e) => (b' :: bs', e)

/-- Go first-variant `rewriteVCLServiceResource` (`lib/parse.go` lines
177-444): strip the three synthesized service attributes, then rewrite the
nested blocks positionally. -/
def rewriteVCLServiceResourceV1 (block : HBlock)
    (_serviceProp : VCLServiceResourceProp) (props : List TFBlockProp) :
    HBlock × Option String :=
  let attrs := removeKV "cloned_version" (removeKV "active_version"
    (removeKV "id" block.attrs))
  match rewriteServiceBlocksV1 props 0 block.blocks with
  | (bs, e) => (⟨block.btype, block.labels, attrs, bs⟩, e)

/-- Go first-variant `rewriteWAFResource` (`lib/parse.go` lines 480-498). -/
def rewriteWAFResourceV1 (block : HBlock) (sp : VCLServiceResourceProp) :
    HBlock × Option String :=
  let attrs := removeKV "id" (removeKV "number" (removeKV "cloned_version"
    (removeKV "active" block.attrs)))
  (⟨block.btype, block.labels, setKV "waf_id" (wafIDRefTokens sp) attrs,
    block.blocks⟩, none)

/-- The entry loop of the first `rewriteACLResource` (`lib/parse.go` lines
456-463): every nested block must be an `entry` block and loses its `id`
attribute; a different block type stops the loop with an error, leaving
that block and its successors untouched. -/
def stripEntryIDsV1 : List HBlock → List HBlock × Option String
  | [] => ([], none)
  | b :: bs =>
    if b.btype ≠ "entry" then (b :: bs, some "Unexpected Terraform block")
    else
      match stripEntryIDsV1 bs with
      | (bs', e) => (b.removeAttribute "id" :: bs', e)

/-- Go first-variant `rewriteACLResource` (`lib/parse.go` lines 446-466). -/
def rewriteACLResourceV1 (block : HBlock) (sp : VCLServiceResourceProp) :
    HBlock × Option String :=
  let attrs := setKV "service_id" (buildServiceIDRef sp)
    (removeKV "id" block.attrs)
  match stripEntryIDsV1 block.blocks with
  | (bs, e) => (⟨block.btype, block.labels, attrs, bs⟩, e)

/-- Go first-variant `rewriteDictionaryResource` (`lib/parse.go` lines
468-478). -/
def rewriteDictionaryResourceV1 (block : HBlock)
    (sp : VCLServiceResourceProp) : HBlock × Option String :=
  (⟨block.btype, block.labels,
    setKV "service_id" (buildServiceIDRef sp) (removeKV "id" block.attrs),
    block.blocks⟩, none)

/-- Go first-variant `rewriteDynamicSnippetResource` (`lib/parse.go` lines
500-516); the Go index panic on a second missing label is modelled as an
error. -/
def rewriteDynamicSnippetResourceV1 (block : HBlock)
    (sp : VCLServiceResourceProp) : HBlock × Option String :=
  let attrs := setKV "service_id" (buildServiceIDRef sp)
    (removeKV "id" block.attrs)
  match block.labels.get? 1 with
  | none => (⟨block.btype, block.labels, attrs, block.blocks⟩,
      some "index out of range")
  | some name =>
    (⟨block.btype, block.labels,
      setKV "content"
        (fileFunctionTokens ("./vcl/dsnippet_" ++ normalizeName name ++ ".vcl"))
        attrs,
      block.blocks⟩, none)

/-- The five resource labels the `RewriteResources` dispatch recognizes. -/
def knownResourceLabels : List String :=
  ["fastly_service_vcl", "fastly_service_waf_configuration",
    "fastly_service_dynamic_snippet_content", "fastly_service_dictionary_items",
    "fastly_service_acl_entries"]

/-- Go first-variant `RewriteResources` (`lib/parse.go` lines 135-175),
after the textual parse: every top-level block must have block type
`resource` (otherwise fatal); the label switch has no default case, so a
`resource` block with an unknown first label is passed through untouched.
The source never assigns the rewrite functions' return values to `err`, so
their errors are discarded; only the document effect (`.1`) survives,
which is modelled by projecting the pair. -/
def RewriteResources (serviceProp : VCLServiceResourceProp)
    (props : List TFBlockProp) : List HBlock → Except String (List HBlock)
  | [] => Except.ok []
  | b :: bs =>
    if b.btype ≠ "resource" then
      Except.error ("Unexpected block type: " ++ b.btype)
    else
      match b.labels with
      | [] => Except.error "index out of range"
      | l :: _ =>
        let b' :=
          if l = "fastly_service_vcl" then
            (rewriteVCLServiceResourceV1 b serviceProp props).1
          else if l = "fastly_service_waf_configuration" then
            (rewriteWAFResourceV1 b serviceProp).1
          else if l = "fastly_service_dynamic_snippet_content" then
            (rewriteDynamicSnippetResourceV1 b serviceProp).1
          else if l = "fastly_service_dictionary_items" then
            (rewriteDictionaryResourceV1 b serviceProp).1
          else if l = "fastly_service_acl_entries" then
            (rewriteACLResourceV1 b serviceProp).1
          else b
        match RewriteResources serviceProp props bs with
        | Except.error e => Except.error e
        | Except.ok bs' => Except.ok (b' :: bs')

theorem rewriteResources_error_of_bad (sp : VCLServiceResourceProp)
    (props : List TFBlockProp) :
    ∀ doc : List HBlock, (∃ b ∈ doc, b.btype ≠ "resource") →
      ∃ e, RewriteResources sp props doc = Except.error e := by
  intro doc
  induction doc with
  | nil =>
    rintro ⟨b, hmem, _⟩
    exact absurd hmem (List.not_mem_nil b)
  | cons hd tl ih =>
    rintro ⟨b, hmem, hbt⟩
    by_cases hhd : hd.btype ≠ "resource"
    · refine ⟨"Unexpected block type: " ++ hd.btype, ?_⟩
      simp only [RewriteResources]
      rw [if_pos hhd]
    · rcases List.mem_cons.mp hmem with rfl | htl
      · exact absurd hbt hhd
      · obtain ⟨e, he⟩ := ih ⟨b, htl, hbt⟩
        cases hl : hd.labels with
        | nil =>
          refine ⟨"index out of range", ?_⟩
          simp only [RewriteResources]
          rw [if_neg hhd, hl]
        | cons l ls =>
          refine ⟨e, ?_⟩
          simp only [RewriteResources]
          rw [if_neg hhd, hl]
          simp only []
          rw [he]

theorem rewriteResources_frame (sp : VCLServiceResourceProp)
    (props : List TFBlockProp) :
    ∀ (doc out : List HBlock), RewriteResources sp props doc = Except.ok out →
      out.length = doc.length ∧
        ∀ i (h1 : i < doc.length) (h2 : i < out.length),
          (doc.get ⟨i, h1⟩).btype = "resource" →
          ∀ l ls, (doc.get ⟨i, h1⟩).labels = l :: ls →
            l ∉ knownResourceLabels → out.get ⟨i, h2⟩ = doc.get ⟨i, h1⟩ := by
  intro doc
  induction doc with
  | nil =>
    intro out h
    simp only [RewriteResources] at h
    injection h with hh
    subst hh
    exact ⟨rfl, by intro i h1; simp at h1⟩
  | cons hd tl ih =>
    intro out h
    simp only [RewriteResources] at h
    by_cases hhd : hd.btype ≠ "resource"
    · rw [if_pos hhd] at h
      exact Except.noConfusion h
    · rw [if_neg hhd] at h
      cases hl : hd.labels with
      | nil =>
        rw [hl] at h
        exact Except.noConfusion h
      | cons l ls =>
        rw [hl] at h
        simp only [] at h
        cases hrest : RewriteResources sp props tl with
        | error e =>
          rw [hrest] at h
          exact Except.noConfusion h
        | ok bs' =>
          rw [hrest] at h
          injection h with hh
          subst hh
          obtain ⟨hlen, hpt⟩ := ih bs' hrest
          constructor
          · simp [hlen]
          · intro i h1 h2 hres lbl lbls hlbl hnot
            cases i with
            | zero =>
              have hll : l = lbl ∧ ls = lbls := by
                have : hd.labels = lbl :: lbls := by simpa using hlbl
                rw [hl] at this
                exact ⟨(List.cons.injEq _ _ _ _ ▸ this).1,
                  (List.cons.injEq _ _ _ _ ▸ this).2⟩
              obtain ⟨rfl, rfl⟩ := hll
              simp only [knownResourceLabels, List.mem_cons,
                List.not_mem_nil, or_false] at hnot
              push_neg at hnot
              obtain ⟨n1, n2, n3, n4, n5⟩ := hnot
              show (if l = "fastly_service_vcl" then _ else _) = hd
              rw [if_neg n1, if_neg n2, if_neg n3, if_neg n4, if_neg n5]
            | succ i =>
              have h1' : i < tl.length := by simpa using h1
              have h2' : i < bs'.length := by simpa using h2
              have := hpt i h1' h2' (by simpa using hres) lbl lbls
                (by simpa using hlbl) hnot
              simpa using this

/-- C4 (amended): `RewriteResources` fails with an error for every document
containing a top-level block whose block type is not `resource`; a
`resource` block whose first label is not one of the five known resource
types is not rejected, it is passed through to the output unchanged. -/
theorem c4_theorem :
    (∀ (sp : VCLServiceResourceProp) (props : List TFBlockProp)
        (doc : List HBlock),
      (∃ b ∈ doc, b.btype ≠ "resource") →
        ∃ e, RewriteResources sp props doc = Except.error e) ∧
    (∀ (sp : VCLServiceResourceProp) (props : List TFBlockProp)
        (doc out : List HBlock),
      RewriteResources sp props doc = Except.ok out →
      out.length = doc.length ∧
        ∀ i (h1 : i < doc.length) (h2 : i < out.length),
          (doc.get ⟨i, h1⟩).btype = "resource" →
          ∀ l ls, (doc.get ⟨i, h1⟩).labels = l :: ls →
            l ∉ knownResourceLabels → out.get ⟨i, h2⟩ = doc.get ⟨i, h1⟩) :=
  ⟨fun sp props doc => rewriteResources_error_of_bad sp props doc,
    fun sp props doc out => rewriteResources_frame sp props doc out⟩

/-- A document whose single top-level block is a `resource` block with a
label outside the known resource types. -/
def unknownLabelDoc : List HBlock :=
  [⟨"resource", ["fastly_unknown_thing", "x"], [("id", strLitTokens "z")], []⟩]

/-- C4 counterexample: on a document containing a top-level `resource`
block whose label is not one of the known resource types,
`RewriteResources` does not fail; it returns the document unchanged. -/
theorem c4_counterexample :
    RewriteResources demoServiceProp [] unknownLabelDoc =
      Except.ok unknownLabelDoc := rfl

/-- C4 witness: a document with a `variable` top-level block (block type
not `resource`) is rejected, and the unknown-label document passes through
with its block intact. -/
theorem c4_witness :
    (∃ e, RewriteResources demoServiceProp []
        [⟨"variable", ["x"], [], []⟩] = Except.error e) ∧
    (unknownLabelDoc.length = unknownLabelDoc.length ∧
      ∀ i (h1 : i < unknownLabelDoc.length) (h2 : i < unknownLabelDoc.length),
        (unknownLabelDoc.get ⟨i, h1⟩).btype = "resource" →
        ∀ l ls, (unknownLabelDoc.get ⟨i, h1⟩).labels = l :: ls →
          l ∉ knownResourceLabels →
            unknownLabelDoc.get ⟨i, h2⟩ = unknownLabelDoc.get ⟨i, h1⟩) :=
  ⟨c4_theorem.1 demoServiceProp [] [⟨"variable", ["x"], [], []⟩]
      ⟨⟨"variable", ["x"], [], []⟩, by simp, by decide⟩,
    c4_theorem.2 demoServiceProp [] unknownLabelDoc unknownLabelDoc rfl⟩

/-- The backend nested block of the C5 failing input. -/
def backendBlockC5 : HBlock :=
  ⟨"backend", [], [("name", strLitTokens "origin")], []⟩

/-- The C5 failing input: a service resource block with one nested backend
block. -/
def serviceBlockC5 : HBlock :=
  ⟨"resource", ["fastly_service_vcl", "service"], [], [backendBlockC5]⟩

/-- The backend descriptor at the C5 failing input: the state accessor
returned an empty client certificate and a non-empty client key. -/
def backendPropC5 : TFBlockProp :=
  TFBlockProp.backend "origin"
    [("ssl_client_cert", ""), ("ssl_client_key", "KEY-PEM")]

/-- The backend arm of the second-variant `rewriteVCLServiceResource`
(`lib/parse.go` lines 766-786): query the state accessor for the two
backend secret fields and set each non-empty value as a literal on the
attribute of the same name.  The fixed two-element key loop of the source
is unrolled, and the templated state query is abstracted as an accessor
from (backend name, key) to the fetched value. -/
def rewriteBackendBlock (query : String → String → Except String String)
    (b : HBlock) : Except String HBlock :=
  match getStringAttributeValue b "name" with
  | Except.error e => Except.error e
  | Except.ok name =>
    match query name "ssl_client_cert" with
    | Except.error e => Except.error e
    | Except.ok v =>
      let b1 := if v ≠ "" then b.setAttributeValue "ssl_client_cert" v else b
      match query name "ssl_client_key" with
      | Except.error e => Except.error e
      | Except.ok v' =>
        let b2 := if v' ≠ "" then b1.setAttributeValue "ssl_client_key" v' else b1
        Except.ok b2

/-- The state accessor at the C5 failing input. -/
def c5Accessor : String → String → Except String String :=
  fun _name key =>
    if key = "ssl_client_cert" then Except.ok ""
    else if key = "ssl_client_key" then Except.ok "KEY-PEM"
    else Except.error "not found"

/-- C5: evaluation of the first-variant service rewrite at the failing
input.  With an empty client certificate and the client key `KEY-PEM`, the
rewritten backend block carries the key value in its `ssl_client_cert`
attribute and has no `ssl_client_key` attribute at all — the source sets
`ssl_client_cert` in both arms (`lib/parse.go` line 211).  The
second-variant backend arm (`rewriteBackendBlock`) sets `ssl_client_key`
as the claim states. -/
theorem c5_theorem :
    ((rewriteVCLServiceResourceV1 serviceBlockC5 demoServiceProp
        [backendPropC5]).1.blocks.map
          (fun nb => (nb.getAttr "ssl_client_key", nb.getAttr "ssl_client_cert")) =
        [(none, some (strLitTokens "KEY-PEM"))] ∧
      (rewriteVCLServiceResourceV1 serviceBlockC5 demoServiceProp
        [backendPropC5]).2 = none) ∧
    rewriteBackendBlock c5Accessor backendBlockC5 =
      Except.ok ⟨"backend", [],
        [("name", strLitTokens "origin"),
          ("ssl_client_key", strLitTokens "KEY-PEM")], []⟩ :=
  ⟨⟨rfl, rfl⟩, rfl⟩

theorem removeKV_removeKV {α : Type} (k : String) (l : List (String × α)) :
    removeKV k (removeKV k l) = removeKV k l := by
  induction l with
  | nil => rfl
  | cons a rest ih =>
    by_cases h : a.1 = k
    · simp [removeKV, h, ih]
    · simp [removeKV, h, ih]

theorem lookupKV_setKV_same {α : Type} (k : String) (v : α)
    (l : List (String × α)) : lookupKV k (setKV k v l) = some v := by
  induction l with
  | nil => simp [setKV, lookupKV]
  | cons a rest ih =>
    by_cases h : a.1 = k
    · simp [setKV, lookupKV, h]
    · simp [setKV, lookupKV, h, ih]

theorem lookupKV_setKV_ne {α : Type} {k k' : String} (h : k ≠ k') (v : α)
    (l : List (String × α)) : lookupKV k (setKV k' v l) = lookupKV k l := by
  have h' : ¬ (k' = k) := fun hh => h hh.symm
  induction l with
  | nil => simp [setKV, lookupKV, h']
  | cons a rest ih =>
    by_cases h1 : a.1 = k'
    · simp [setKV, lookupKV, h1, h, h']
    · by_cases h2 : a.1 = k
      · simp [setKV, lookupKV, h1, h2, h, h']
      · simp [setKV, lookupKV, h1, h2, h, h', ih]

theorem setKV_self_of_lookup {α : Type} {k : String} {v : α} :
    ∀ l : List (String × α), lookupKV k l = some v → setKV k v l = l := by
  intro l
  induction l with
  | nil => intro h; simp [lookupKV] at h
  | cons a rest ih =>
    intro h
    by_cases h1 : a.1 = k
    · simp only [lookupKV, if_pos h1] at h
      injection h with hv
      have ha : a = (k, v) := by
        cases a
        simp at h1 hv
        simp [h1, hv]
      simp [setKV, h1, ha]
    · simp only [lookupKV, if_neg h1] at h
      simp [setKV, h1, ih h]

theorem removeKV_setKV_ne {α : Type} {k k' : String} (h : k ≠ k') (v : α)
    (l : List (String × α)) :
    removeKV k (setKV k' v l) = setKV k' v (removeKV k l) := by
  have h' : ¬ (k' = k) := fun hh => h hh.symm
  induction l with
  | nil => simp [setKV, removeKV, h']
  | cons a rest ih =>
    by_cases h1 : a.1 = k'
    · have h2 : ¬ (a.1 = k) := by rw [h1]; exact h'
      simp [setKV, removeKV, h1, h2, h, h']
    · by_cases h2 : a.1 = k
      · simp [setKV, removeKV, h1, h2, h, h', ih]
      · simp [setKV, removeKV, h1, h2, h, h', ih]

theorem depAttrs_idem (mkey : String) (h1 : mkey ≠ "id")
    (h2 : mkey ≠ "service_id") (manage : Bool) (ref : List HTok)
    (a : List (String × List HTok)) :
    setKV "service_id" ref
        (if manage then
          setKV mkey (boolTokens true) (removeKV "id"
            (setKV "service_id" ref
              (if manage then setKV mkey (boolTokens true) (removeKV "id" a)
               else removeKV "id" a)))
         else
          removeKV "id"
            (setKV "service_id" ref
              (if manage then setKV mkey (boolTokens true) (removeKV "id" a)
               else removeKV "id" a))) =
      setKV "service_id" ref
        (if manage then setKV mkey (boolTokens true) (removeKV "id" a)
         else removeKV "id" a) := by
  have hid_sid : ("id" : String) ≠ "service_id" := by decide
  have hid_mkey : ("id" : String) ≠ mkey := fun hh => h1 hh.symm
  cases manage with
  | false =>
    simp only [Bool.false_eq_true, if_false]
    rw [removeKV_setKV_ne hid_sid, removeKV_removeKV]
    exact setKV_self_of_lookup _ (lookupKV_setKV_same "service_id" ref _)
  | true =>
    simp only [if_true]
    rw [removeKV_setKV_ne hid_sid, removeKV_setKV_ne hid_mkey, removeKV_removeKV]
    have hm : setKV mkey (boolTokens true)
        (setKV "service_id" ref (setKV mkey (boolTokens true)
          (removeKV "id" a))) =
        setKV "service_id" ref (setKV mkey (boolTokens true)
          (removeKV "id" a)) := by
      refine setKV_self_of_lookup _ ?_
      rw [lookupKV_setKV_ne h2]
      exact lookupKV_setKV_same mkey (boolTokens true) _
    rw [hm]
    exact setKV_self_of_lookup _ (lookupKV_setKV_same "service_id" ref _)

/-- The entry loop of `rewriteACLResource` (`lib/parse.go` lines
1002-1010): every nested block must be an `entry` block, and each entry
loses its synthesized `id` attribute. -/
def checkEntriesAndStripIDs : List HBlock → Except String (List HBlock)
  | [] => Except.ok []
  | b :: bs =>
    if b.btype ≠ "entry" then Except.error "Unexpected Terraform block"
    else
      match checkEntriesAndStripIDs bs with
      | Except.error e => Except.error e
      | Except.ok bs' => Except.ok (b.removeAttribute "id" :: bs')

/-- Go `rewriteACLResource`, second variant (`lib/parse.go` lines
988-1013): remove the synthesized `id`, optionally set `manage_entries`,
inject the `service_id` cross-reference, and strip the `id` of every
`entry` sub-block (any other sub-block type is fatal).  The source applies
the attribute edits before walking the entries; at the `Except` level the
order is immaterial and the success value is identical. -/
def rewriteACLResource (c : Config) (sp : VCLServiceResourceProp)
    (block : HBlock) : Except String HBlock :=
  match checkEntriesAndStripIDs block.blocks with
  | Except.error e => Except.error e
  | Except.ok bs =>
    Except.ok ⟨block.btype, block.labels,
      setKV "service_id" (buildServiceIDRef sp)
        (if c.ManageAll then
          setKV "manage_entries" (boolTokens true) (removeKV "id" block.attrs)
         else removeKV "id" block.attrs),
      bs⟩

/-- Go `rewriteDictionaryResource`, second variant (`lib/parse.go` lines
1015-1030): remove the synthesized `id`, optionally set `manage_items`,
inject the `service_id` cross-reference. -/
def rewriteDictionaryResource (c : Config) (sp : VCLServiceResourceProp)
    (block : HBlock) : Except String HBlock :=
  Except.ok ⟨block.btype, block.labels,
    setKV "service_id" (buildServiceIDRef sp)
      (if c.ManageAll then
        setKV "manage_items" (boolTokens true) (removeKV "id" block.attrs)
       else removeKV "id" block.attrs),
    block.blocks⟩

theorem checkEntries_idem : ∀ (bs bs' : List HBlock),
    checkEntriesAndStripIDs bs = Except.ok bs' →
    checkEntriesAndStripIDs bs' = Except.ok bs' := by
  intro bs
  induction bs with
  | nil =>
    intro bs' h
    simp only [checkEntriesAndStripIDs] at h
    injection h with hh
    subst hh
    rfl
  | cons b bs ih =>
    intro bs' h
    simp only [checkEntriesAndStripIDs] at h
    by_cases hb : b.btype ≠ "entry"
    · rw [if_pos hb] at h
      exact Except.noConfusion h
    · rw [if_neg hb] at h
      cases hrest : checkEntriesAndStripIDs bs with
      | error e =>
        rw [hrest] at h
        exact Except.noConfusion h
      | ok rest' =>
        rw [hrest] at h
        injection h with hh
        subst hh
        simp only [checkEntriesAndStripIDs]
        have hbt : (b.removeAttribute "id").btype = b.btype := by
          cases b
          rfl
        rw [if_neg (by rw [hbt]; exact hb), ih rest' hrest]
        have hrr : (b.removeAttribute "id").removeAttribute "id" =
            b.removeAttribute "id" := by
          cases b
          simp [HBlock.removeAttribute, HBlock.btype, HBlock.labels,
            HBlock.attrs, HBlock.blocks, removeKV_removeKV]
        simp only []
        rw [hrr]

/-- C3: the dependent-resource rewrites are idempotent.  Re-running the
ACL-entries rewrite (or the dictionary-items rewrite) on its own output
finds no synthesized `id` attributes left to remove, does not duplicate
the injected `service_id` cross-reference or the `manage_*` flag, and
returns the once-rewritten document unchanged. -/
theorem c3_theorem (c : Config) (sp : VCLServiceResourceProp) (b b' : HBlock) :
    (rewriteACLResource c sp b = Except.ok b' →
      rewriteACLResource c sp b' = Except.ok b') ∧
    (rewriteDictionaryResource c sp b = Except.ok b' →
      rewriteDictionaryResource c sp b' = Except.ok b') := by
  constructor
  · intro h
    cases b with
    | mk t lbls a blks =>
      simp only [rewriteACLResource, HBlock.btype, HBlock.labels,
        HBlock.attrs, HBlock.blocks] at h
      cases hcheck : checkEntriesAndStripIDs blks with
      | error e =>
        rw [hcheck] at h
        exact Except.noConfusion h
      | ok bs =>
        rw [hcheck] at h
        injection h with hh
        subst hh
        simp only [rewriteACLResource, HBlock.btype, HBlock.labels,
          HBlock.attrs, HBlock.blocks]
        rw [checkEntries_idem blks bs hcheck]
        simp only []
        rw [depAttrs_idem "manage_entries" (by decide) (by decide) c.ManageAll
          (buildServiceIDRef sp) a]
  · intro h
    cases b with
    | mk t lbls a blks =>
      simp only [rewriteDictionaryResource, HBlock.btype, HBlock.labels,
        HBlock.attrs, HBlock.blocks] at h
      injection h with hh
      subst hh
      simp only [rewriteDictionaryResource, HBlock.btype, HBlock.labels,
        HBlock.attrs, HBlock.blocks]
      rw [depAttrs_idem "manage_items" (by decide) (by decide) c.ManageAll
        (buildServiceIDRef sp) a]

/-- The configuration with `--manage-all` set, used by the examples. -/
def cfgManage : Config := ⟨true, "."⟩

/-- An ACL-entries resource block as imported: synthesized `id` attributes
on the resource and on its entry. -/
def aclResourceBlock : HBlock :=
  ⟨"resource", ["fastly_service_acl_entries", "acl"],
    [("id", strLitTokens "xyz")],
    [⟨"entry", [], [("id", strLitTokens "e1"), ("ip", strLitTokens "1.2.3.4")],
      []⟩]⟩

/-- The once-rewritten form of `aclResourceBlock`. -/
def aclRewrittenBlock : HBlock :=
  ⟨"resource", ["fastly_service_acl_entries", "acl"],
    [("manage_entries", boolTokens true),
      ("service_id",
        [HTok.ident "fastly_service_vcl", HTok.sym ".", HTok.ident "demo",
          HTok.sym ".", HTok.ident "id"])],
    [⟨"entry", [], [("ip", strLitTokens "1.2.3.4")], []⟩]⟩

/-- C3 witness: rewriting the concrete imported ACL block yields
`aclRewrittenBlock`, and rewriting that output again returns it
unchanged. -/
theorem c3_witness :
    rewriteACLResource cfgManage demoServiceProp aclRewrittenBlock =
      Except.ok aclRewrittenBlock :=
  ( c3_theorem cfgManage demoServiceProp aclResourceBlock aclRewrittenBlock).1
    (by rfl)

/-- A JSON tree, the value type of `TFState.Value` (`interface{}` decoded
from JSON; numbers are modelled as integers, which is all the state fields
used here need). -/
inductive JVal where
  | null
  | bool (b : Bool)
  | str (s : String)
  | num (n : Int)
  | arr (elems : List JVal)
  | obj (fields : List (String × JVal))

/-- A parsed gojq program, modelled by the stream of values and error
values its iterator yields on an input value; gojq is an external
collaborator and jq evaluation is pure. -/
def GojqProgram : Type := JVal → List (Except String JVal)

/-- The `gojq.Parse` front end, abstracted: a parser maps query text to a
program or a parse error. -/
def GojqParser : Type := String → Except String GojqProgram

/-- Go struct `TFState` (`lib/tfstate.go`). -/
structure TFState where
  Value : JVal

/-- The error taxonomy of `TFState.Query`: a parse failure, an error value
yielded by evaluation, or the not-found error built from the query text
when the iterator yields nothing. -/
inductive TFStateError where
  | parseError (msg : String)
  | evalError (msg : String)
  | notFound (query : String)

/-- The outcome of one method call on a `*TFState` receiver: the returned
result together with the receiver's state after the call.  A Go method
could write through the receiver pointer, so the embedding makes the
receiver's final state explicit; that `TFState.Query` never does is then a
provable frame property rather than an assumption. -/
structure QueryOutcome where
  result : Except TFStateError TFState
  receiver : TFState

/-- Go `TFState.Query` (`lib/tfstate.go` lines 85-102): parse the query,
run it, and inspect the first iterator item only — nothing yielded is the
not-found error, an error value is returned as an error, and any other
value is wrapped in a new `TFState`. -/
def TFState.Query (s : TFState) (gojq : GojqParser) (query : String) :
    QueryOutcome :=
  { result :=
      match gojq query with
      | Except.error e => Except.error (TFStateError.parseError e)
      | Except.ok prog =>
        match prog s.Value with
        | [] => Except.error (TFStateError.notFound query)
        | Except.error e :: _ => Except.error (TFStateError.evalError e)
        | Except.ok v :: _ => Except.ok ⟨v⟩
    receiver := s }

/-- The gojq source text of `setActivateQuery` (`lib/tfstate.go` line 24). -/
def setActivateQuery : String :=
  "(.resources[] | select(.type == \"fastly_service_vcl\" or .type == \"fastly_service_waf_configuration\") | .instances[].attributes.activate) |= true"

/-- The gojq source text of `setManageSnippetsQuery` (`lib/tfstate.go`). -/
def setManageSnippetsQuery : String :=
  "(.resources[] | select(.type == \"fastly_service_dynamic_snippet_content\") | .instances[].attributes.manage_snippets) |=true"

/-- The gojq source text of `setManageItemsQuery` (`lib/tfstate.go`). -/
def setManageItemsQuery : String :=
  "(.resources[] | select(.type == \"fastly_service_dictionary_items\") | .instances[].attributes.manage_items) |=true"

/-- The gojq source text of `setManageEntriesQuery` (`lib/tfstate.go`). -/
def setManageEntriesQuery : String :=
  "(.resources[] | select(.type == \"fastly_service_acl_entries\") | .instances[].attributes.manage_entries) |=true"

def TFState.SetActivateAttr (s : TFState) (gojq : GojqParser) : QueryOutcome :=
  s.Query gojq setActivateQuery

def TFState.SetManageSnippetsAttr (s : TFState) (gojq : GojqParser) :
    QueryOutcome :=
  s.Query gojq setManageSnippetsQuery

def TFState.SetManageItemsAttr (s : TFState) (gojq : GojqParser) :
    QueryOutcome :=
  s.Query gojq setManageItemsQuery

def TFState.SetManageEntriesAttr (s : TFState) (gojq : GojqParser) :
    QueryOutcome :=
  s.Query gojq setManageEntriesQuery

/-- C9: every query/patch operation on a state document returns its result
as a fresh `TFState` value and leaves the receiver untouched: the
receiver after `Query`, `SetActivateAttr`, `SetManageSnippetsAttr`,
`SetManageItemsAttr` and `SetManageEntriesAttr` equals the receiver
before, for every state value, parser behaviour and query string. -/
theorem c9_theorem (gojq : GojqParser) (s : TFState) (query : String) :
    (s.Query gojq query).receiver = s ∧
    (s.SetActivateAttr gojq).receiver = s ∧
    (s.SetManageSnippetsAttr gojq).receiver = s ∧
    (s.SetManageItemsAttr gojq).receiver = s ∧
    (s.SetManageEntriesAttr gojq).receiver = s :=
  ⟨rfl, rfl, rfl, rfl, rfl⟩

/-- C7: for a query that parses, `TFState.Query` returns the not-found
error exactly when evaluation yields no result; a first result that is an
error value is returned as an evaluation error, and a first result that is
a value is wrapped in a new state document. -/
theorem c7_theorem (gojq : GojqParser) (s : TFState) (query : String)
    (prog : GojqProgram) (hparse : gojq query = Except.ok prog) :
    ((s.Query gojq query).result =
        Except.error (TFStateError.notFound query) ↔ prog s.Value = []) ∧
    (∀ v rest, prog s.Value = Except.ok v :: rest →
      (s.Query gojq query).result = Except.ok ⟨v⟩) ∧
    (∀ e rest, prog s.Value = Except.error e :: rest →
      (s.Query gojq query).result =
        Except.error (TFStateError.evalError e)) := by
  refine ⟨⟨?_, ?_⟩, ?_, ?_⟩
  · intro h
    simp only [TFState.Query, hparse] at h
    cases hl : prog s.Value with
    | nil => rfl
    | cons x xs =>
      rw [hl] at h
      cases x with
      | error e =>
        simp only [] at h
        injection h with h2
        exact TFStateError.noConfusion h2
      | ok v =>
        simp only [] at h
        exact Except.noConfusion h
  · intro h
    simp only [TFState.Query, hparse, h]
  · intro v rest h
    simp only [TFState.Query, hparse, h]
  · intro e rest h
    simp only [TFState.Query, hparse, h]

/-- A program yielding nothing, as the evaluation of a too-selective query
does. -/
def emptyProg : GojqProgram := fun _ => []

/-- A parser front end that parses every query to the given program. -/
def constParser (prog : GojqProgram) : GojqParser := fun _ => Except.ok prog

/-- C7 witness: with a program that yields no result, `Query` returns the
not-found error carrying the query text. -/
theorem c7_witness :
    (TFState.Query ⟨JVal.null⟩ (constParser emptyProg) ".missing").result =
      Except.error (TFStateError.notFound ".missing") :=
  (( c7_theorem (constParser emptyProg) ⟨JVal.null⟩ ".missing" emptyProg
    rfl).1).mpr rfl

/-- One resource instance of a Terraform state document: its attribute
object. -/
structure TFInstance where
  attributes : List (String × JVal)

/-- One resource of a Terraform state document: its type, name and
instances. -/
structure TFResource where
  type : String
  name : String
  instances : List TFInstance

/-- The resource tree of a Terraform state document. -/
structure TFStateDoc where
  resources : List TFResource

/-- The type predicate of `setActivateQuery`:
`select(.type == "fastly_service_vcl" or .type ==
"fastly_service_waf_configuration")`. -/
def activateTargetTypes (t : String) : Bool :=
  t == "fastly_service_vcl" || t == "fastly_service_waf_configuration"

/-- The per-instance effect of `setActivateQuery`:
`.instances[].attributes.activate |= true` sets the `activate` key of the
attribute object to `true`, adding the key if it is absent (jq `setpath`
update). -/
def setActivateInstance (inst : TFInstance) : TFInstance :=
  ⟨setKV "activate" (JVal.bool true) inst.attributes⟩

/-- Denotation of the gojq program `setActivateQuery` on a well-formed
state document: the update-assignment patches the `activate` attribute of
every instance of every resource selected by the type predicate and
touches no other path of the document. -/
def applySetActivateQuery (doc : TFStateDoc) : TFStateDoc :=
  ⟨doc.resources.map fun r =>
    if activateTargetTypes r.type then
      ⟨r.type, r.name, r.instances.map setActivateInstance⟩
    else r⟩

/-- C8: applying the activate patch sets `activate` to `true` on every
instance of every resource whose type is `fastly_service_vcl` or
`fastly_service_waf_configuration`, leaves every other resource entirely
unchanged, and within a patched instance changes no attribute other than
`activate`. -/
theorem c8_theorem (doc : TFStateDoc) :
    (applySetActivateQuery doc).resources.length = doc.resources.length ∧
    (∀ i (h1 : i < doc.resources.length)
        (h2 : i < (applySetActivateQuery doc).resources.length),
      activateTargetTypes (doc.resources.get ⟨i, h1⟩).type = false →
        (applySetActivateQuery doc).resources.get ⟨i, h2⟩ =
          doc.resources.get ⟨i, h1⟩) ∧
    (∀ i (h1 : i < doc.resources.length)
        (h2 : i < (applySetActivateQuery doc).resources.length),
      activateTargetTypes (doc.resources.get ⟨i, h1⟩).type = true →
        ((applySetActivateQuery doc).resources.get ⟨i, h2⟩).instances =
          (doc.resources.get ⟨i, h1⟩).instances.map setActivateInstance ∧
        ∀ inst ∈ ((applySetActivateQuery doc).resources.get ⟨i, h2⟩).instances,
          lookupKV "activate" inst.attributes = some (JVal.bool true)) ∧
    (∀ (inst : TFInstance) (k : String), k ≠ "activate" →
      lookupKV k (setActivateInstance inst).attributes =
        lookupKV k inst.attributes) := by
  refine ⟨by simp [applySetActivateQuery], ?_, ?_, ?_⟩
  · intro i h1 h2 hf
    simp only [List.get_eq_getElem] at hf
    simp only [applySetActivateQuery, List.get_eq_getElem, List.getElem_map]
    rw [if_neg (by simp [hf])]
  · intro i h1 h2 ht
    simp only [List.get_eq_getElem] at ht
    constructor
    · simp only [applySetActivateQuery, List.get_eq_getElem, List.getElem_map]
      rw [if_pos ht]
    · intro inst hmem
      simp only [applySetActivateQuery, List.get_eq_getElem,
        List.getElem_map] at hmem
      rw [if_pos ht] at hmem
      simp only [List.mem_map] at hmem
      obtain ⟨inst0, _, rfl⟩ := hmem
      exact lookupKV_setKV_same "activate" (JVal.bool true) inst0.attributes
  · intro inst k hk
    exact lookupKV_setKV_ne hk (JVal.bool true) inst.attributes

/-- The state document of the C8 witness: one service resource and one
unrelated resource. -/
def c8Doc : TFStateDoc :=
  ⟨[⟨"fastly_service_vcl", "service",
      [⟨[("activate", JVal.bool false), ("stale_records", JVal.null)]⟩]⟩,
    ⟨"aws_s3_bucket", "b", [⟨[("acl", JVal.str "private")]⟩]⟩]⟩

/-- C8 witness: on the concrete document, the unrelated resource is
unchanged and the service resource's instances get `activate = true`. -/
theorem c8_witness :
    (applySetActivateQuery c8Doc).resources.get ⟨1, by decide⟩ =
      c8Doc.resources.get ⟨1, by decide⟩ ∧
    ((applySetActivateQuery c8Doc).resources.get ⟨0, by decide⟩).instances =
      (c8Doc.resources.get ⟨0, by decide⟩).instances.map setActivateInstance :=
  ⟨( c8_theorem c8Doc).2.1 1 (by decide) (by decide) (by decide),
    (( c8_theorem c8Doc).2.2.1 0 (by decide) (by decide) (by decide)).1⟩
